import Mathlib

/-!
Verification of the tarjousbot incremental crawl engine.

The Rust sources (src/main.rs, src/error.rs, src/webhook.rs) are embedded
shallowly: every pure function is translated directly; the effectful crawl
loop in run becomes an explicit function over an environment describing the
outside world (cursor files, HTTP fetches, webhook delivery outcomes), and
its observable effects (deliveries, fetched pages, cursor writes, exit
status) are collected in a result structure. Machine integers are Nat with
explicit range checks where the source parses u32 values. Strings are
modelled as List Char (a Rust str is a sequence of Unicode codepoints).
-/

namespace Tarjousbot

/-- Error kinds of std::io::ErrorKind that the program distinguishes:
NotFound is special-cased in try_read_u32; every other kind is collapsed
into a few representatives sufficient to model the branching. -/
inductive IOKind where
  | notFound
  | permissionDenied
  | unexpectedEof
  | otherKind
deriving DecidableEq

/-- The error enum from src/error.rs: Io, Reqwest (payload dropped:
the program never inspects it), Scraping. -/
inductive Error where
  | io (k : IOKind)
  | reqwest
  | scraping
deriving DecidableEq

/-- Result of File::open plus the subsequent read_u32 in try_read_u32:
either the open failed with an error kind, or the file opened and the
4-byte little-endian read either produced a value or failed. -/
inductive ReadOutcome where
  | openFail (k : IOKind)
  | opened (r : Except IOKind Nat)

/-- Embedding of try_read_u32 (src/main.rs lines 30-41): a NotFound open
error yields Ok(None); any other open error propagates; a successful open
followed by read_u32(...).ok() yields Ok(Some v) on success and Ok(None)
on any read failure. -/
def try_read_u32 : ReadOutcome → Except Error (Option Nat)
  | .openFail .notFound => .ok none
  | .openFail k => .error (.io k)
  | .opened (.ok v) => .ok (some v)
  | .opened (.error _) => .ok none

/-- Strips a literal prefix from a character list, as str::strip_prefix. -/
def stripPrefixL : List Char → List Char → Option (List Char)
  | [], s => some s
  | _, [] => none
  | p :: ps, c :: cs => if p = c then stripPrefixL ps cs else none

/-- Decimal digit value of a character, none for a non-digit. -/
def digitVal (c : Char) : Option Nat :=
  if '0' ≤ c ∧ c ≤ '9' then some (c.toNat - '0'.toNat) else none

/-- Accumulating decimal parse over a digit list. -/
def parseDigitsAux : List Char → Nat → Option Nat
  | [], acc => some acc
  | c :: cs, acc =>
    match digitVal c with
    | some d => parseDigitsAux cs (acc * 10 + d)
    | none => none

/-- Parses a nonempty all-digit character list as a decimal number. -/
def parseDigits : List Char → Option Nat
  | [] => none
  | cs => parseDigitsAux cs 0

/-- The u32 maximum value, used by run as the unknown-page sentinel. -/
def U32MAX : Nat := 4294967295

/-- Embedding of str::parse::\<u32\> as used by the program: an optional
leading plus sign, then at least one decimal digit, and the value must fit
in 32 bits (Rust rejects overflow rather than wrapping). -/
def parseU32 (s : List Char) : Option Nat :=
  let t := match s with
    | '+' :: rest => rest
    | _ => s
  match parseDigits t with
  | some v => if v < 4294967296 then some v else none
  | none => none

/-- A DOM node as the content walk in get_content distinguishes them:
a text node, an element (with name, attributes and children), or any
other node kind (comment, doctype, processing instruction). -/
inductive Node where
  | text (t : List Char) : Node
  | elem (name : String) (attrs : List (String × List Char)) (children : List Node) : Node
  | other : Node

/-- Attribute lookup on an element, as scraper Element::attr. -/
def attrLookup (a : String) : List (String × List Char) → Option (List Char)
  | [] => none
  | (n, v) :: rest => if n = a then some v else attrLookup a rest

mutual
/-- All descendant text nodes of a node in depth-first document order,
as the iterator ElementRef::text produces them. -/
def collectTexts : Node → List (List Char)
  | .text t => [t]
  | .elem _ _ cs => collectTextsL cs
  | .other => []

/-- All descendant text nodes of a node list, depth first, left to right. -/
def collectTextsL : List Node → List (List Char)
  | [] => []
  | n :: ns => collectTexts n ++ collectTextsL ns
end

/-- Contribution of one child node to the post content, embedding the match
in get_content (src/main.rs lines 99-107): text verbatim, br becomes a
newline, a contributes its href attribute (or nothing when absent), any
other element contributes the first text of its descendant-text iterator,
any other node kind contributes nothing. -/
def contentPiece : Node → List Char
  | .text t => t
  | .elem name attrs children =>
    if name = "br" then ['\n']
    else if name = "a" then (attrLookup "href" attrs).getD []
    else ((collectTextsL children).head?).getD []
  | .other => []

/-- Concatenation of the per-child contributions over the children of the
post body container, embedding the map-collect in get_content. -/
def rawContent : List Node → List Char
  | [] => []
  | n :: ns => contentPiece n ++ rawContent ns

/-- The literal title marker "Tuote:" from get_title. -/
def markerTuote : List Char := ['T', 'u', 'o', 't', 'e', ':']

/-- Splitting at newline characters, as str::split of a newline: always a
nonempty list of pieces, an empty input yielding one empty piece. -/
def splitOnNl : List Char → List (List Char)
  | [] => [[]]
  | c :: cs =>
    if c = '\n' then [] :: splitOnNl cs
    else
      match splitOnNl cs with
      | [] => [[c]]
      | p :: ps => (c :: p) :: ps

/-- Embedding of get_title (src/main.rs lines 83-91): strip the marker
falling back to the default, then take the piece before the first newline,
falling back to the default when the split iterator is empty (which in
fact never happens). -/
def get_title (content default_title : List Char) : List Char :=
  let base := (stripPrefixL markerTuote content).getD default_title
  ((splitOnNl base).head?).getD default_title

/-- Byte offsets of the codepoints of a string, accumulating UTF-8 sizes,
as str::char_indices. -/
def charIndicesAux : List Char → Nat → List (Nat × Char)
  | [], _ => []
  | c :: cs, off => (off, c) :: charIndicesAux cs (off + c.utf8Size)

/-- Embedding of str::char_indices: each codepoint with its byte offset. -/
def charIndices (s : List Char) : List (Nat × Char) := charIndicesAux s 0

/-- The codepoints of a string occupying its first n bytes, modelling the
byte slice s[..n] when n is a codepoint boundary. -/
def takeBytes : List Char → Nat → List Char
  | [], _ => []
  | c :: cs, n => if c.utf8Size ≤ n then c :: takeBytes cs (n - c.utf8Size) else []

/-- Embedding of truncate (src/main.rs lines 165-170): if the string has at
most max_chars codepoints return it whole, otherwise slice it at the byte
index of codepoint number max_chars. -/
def truncate (s : List Char) (max_chars : Nat) : List Char :=
  match (charIndices s).get? max_chars with
  | none => s
  | some (idx, _) => takeBytes s idx

/-- Total UTF-8 byte length of a string. -/
def utf8Len : List Char → Nat
  | [] => 0
  | c :: cs => c.utf8Size + utf8Len cs

/-- The UTF-8 encoding of one codepoint as a byte list. -/
def charUtf8 (c : Char) : List Nat :=
  let v := c.toNat
  if v < 128 then [v]
  else if v < 2048 then
    [192 + v / 64, 128 + v % 64]
  else if v < 65536 then
    [224 + v / 4096, 128 + v / 64 % 64, 128 + v % 64]
  else
    [240 + v / 262144, 128 + v / 4096 % 64, 128 + v / 64 % 64, 128 + v % 64]

/-- The UTF-8 encoding of a string as a byte list. -/
def utf8Encode : List Char → List Nat
  | [] => []
  | c :: cs => charUtf8 c ++ utf8Encode cs

/-- A structural element selected inside a post container, abstracted at
the scraper boundary by its attributes and the output of its
descendant-text iterator. -/
structure SelElem where
  attrs : List (String × List Char)
  texts : List (List Char)

/-- One .message container of a page, abstracted at the scraper boundary:
its data-content attribute and the first element matched inside it by each
of the four inner selectors (.u-dt, .username, .avatar img, .bbWrapper),
each absent when the selector matches nothing. The body container keeps
its child node list, which the content walk needs. -/
structure PostElem where
  dataContent : Option (List Char)
  timeElem : Option SelElem
  usernameElem : Option SelElem
  avatarElem : Option SelElem
  contentChildren : Option (List Node)

/-- One fetched page, abstracted at the scraper boundary: the .message
containers in document order, and the navigation element following the
current-page marker when present. -/
structure Page where
  posts : List PostElem
  nextNav : Option SelElem

/-- A successful page fetch: the last path segment of the final response
URL (none when the URL has no path segments), and the parsed page. -/
structure FetchResult where
  urlLastSegment : Option (List Char)
  page : Page

/-- Embedding of get_post_id (src/main.rs lines 73-81): the data-content
attribute must exist, start with post-, and parse as u32; every failure is
a scraping error. -/
def get_post_id (p : PostElem) : Except Error Nat :=
  match p.dataContent with
  | none => .error .scraping
  | some s =>
    match stripPrefixL ['p', 'o', 's', 't', '-'] s with
    | none => .error .scraping
    | some digits =>
      match parseU32 digits with
      | none => .error .scraping
      | some v => .ok v

/-- The forum origin prepended to relative user and avatar links. -/
def origin : List Char := "https://bbs.io-tech.fi".toList

/-- Embedding of get_timestamp: the datetime attribute of the first .u-dt
element; absence of either is a scraping error. -/
def get_timestamp (p : PostElem) : Except Error (List Char) :=
  match p.timeElem with
  | none => .error .scraping
  | some e =>
    match attrLookup "datetime" e.attrs with
    | none => .error .scraping
    | some t => .ok t

/-- Embedding of get_username_element: the first .username element;
absence is a scraping error. -/
def get_username_element (p : PostElem) : Except Error SelElem :=
  match p.usernameElem with
  | none => .error .scraping
  | some e => .ok e

/-- Embedding of get_username_str: the first descendant text of the
username element; absence is a scraping error. -/
def get_username_str (e : SelElem) : Except Error (List Char) :=
  match e.texts.head? with
  | none => .error .scraping
  | some t => .ok t

/-- Embedding of get_user_url: the href attribute of the username element
resolved against the origin; absence of the attribute is a scraping
error. -/
def get_user_url (e : SelElem) : Except Error (List Char) :=
  match attrLookup "href" e.attrs with
  | none => .error .scraping
  | some h => .ok (origin ++ h)

/-- Embedding of get_avatar_url: an absent avatar element is not an error
and yields none; a present element must carry a src attribute, resolved
against the origin. -/
def get_avatar_url (p : PostElem) : Except Error (Option (List Char)) :=
  match p.avatarElem with
  | none => .ok none
  | some e =>
    match attrLookup "src" e.attrs with
    | none => .error .scraping
    | some s => .ok (some (origin ++ s))

/-- Embedding of get_content (src/main.rs lines 93-110): the first
.bbWrapper element must exist; its children are walked and concatenated. -/
def get_content (p : PostElem) : Except Error (List Char) :=
  match p.contentChildren with
  | none => .error .scraping
  | some cs => .ok (rawContent cs)

/-- The environment-determined parts of one run: the webhook config read,
whether the HTTP client builds, the fetch oracle (none models a transport
or status error for that page number), the per-post delivery oracle keyed
by post id, and the outcomes of the two cursor writes (none = success). -/
structure EnvBase where
  webhookConf : Except IOKind (List Char)
  clientOk : Bool
  fetch : Nat → Option FetchResult
  deliverOk : Nat → Bool
  writePageErr : Option IOKind
  writeSentErr : Option IOKind

/-- A full run environment: the base plus the two cursor reads. -/
structure Env extends EnvBase where
  lastPageRead : ReadOutcome
  lastSentRead : ReadOutcome

/-- Builds an environment whose cursor files hold the given optional
values and are readable (absent when the value is none). -/
def mkEnv (b : EnvBase) (storedPage storedSent : Option Nat) : Env :=
  { b with
    lastPageRead := match storedPage with
      | some v => .opened (.ok v)
      | none => .openFail .notFound
    lastSentRead := match storedSent with
      | some v => .opened (.ok v)
      | none => .openFail .notFound }

/-- Sequential extraction of the fields of a new post, in the order the
loop body performs it (timestamp, username element, username text, user
url, avatar, content); the first scraping error aborts. -/
def extractFields (p : PostElem) : Except Error Unit :=
  match get_timestamp p with
  | .error e => .error e
  | .ok _ =>
    match get_username_element p with
    | .error e => .error e
    | .ok ue =>
      match get_username_str ue with
      | .error e => .error e
      | .ok _ =>
        match get_user_url ue with
        | .error e => .error e
        | .ok _ =>
          match get_avatar_url p with
          | .error e => .error e
          | .ok _ =>
            match get_content p with
            | .error e => .error e
            | .ok _ => .ok ()

/-- Embedding of the for-loop over the posts of one page in the branch
where last_sent_post is set (src/main.rs lines 227-269). Arguments: the
fixed watermark last_sent_id loaded at run start, the remaining posts, and
the running last_id_temp. Returns the ids delivered on this page together
with either an error (a post failed to extract) or the final last_id_temp
and the failed flag (a delivery was rejected). -/
def processPosts (env : Env) (lastSentId : Nat) :
    List PostElem → Nat → List Nat × Except Error (Nat × Bool)
  | [], temp => ([], .ok (temp, false))
  | p :: rest, temp =>
    match get_post_id p with
    | .error e => ([], .error e)
    | .ok pid =>
      if lastSentId < pid then
        match extractFields p with
        | .error e => ([], .error e)
        | .ok _ =>
          if env.deliverOk pid then
            let (ds, r) := processPosts env lastSentId rest pid
            (pid :: ds, r)
          else ([], .ok (temp, true))
      else processPosts env lastSentId rest temp

/-- Embedding of the unknown-page resolution (src/main.rs lines 208-220):
when the requested number is the u32 maximum sentinel, the concrete page
number is recovered from the trailing path segment of the response URL,
of shape page-digits; otherwise the requested number stands. -/
def resolvePage (pageNumber : Nat) (fr : FetchResult) : Except Error Nat :=
  if pageNumber = U32MAX then
    match fr.urlLastSegment with
    | none => .error .scraping
    | some seg =>
      match stripPrefixL ['p', 'a', 'g', 'e', '-'] seg with
      | none => .error .scraping
      | some digits =>
        match parseU32 digits with
        | none => .error .scraping
        | some n => .ok n
  else .ok pageNumber

/-- Embedding of the next-page parse (src/main.rs lines 275-281): the
first text of the navigation element, parsed as u32; a missing text or a
parse failure is a scraping error. -/
def navNext (nav : SelElem) : Except Error Nat :=
  match nav.texts.head? with
  | none => .error .scraping
  | some t =>
    match parseU32 t with
    | none => .error .scraping
    | some n => .ok n

/-- Terminal state of the crawl loop: the final page number and last_id on
a normal break, a propagated error, or exhausted fuel (an artefact of the
embedding for a loop the environment never lets terminate). -/
inductive LoopRes where
  | ok (pageNumber lastId : Nat)
  | err (e : Error)
  | fuelOut
deriving DecidableEq

/-- Observable trace of the crawl loop: the post ids delivered in order,
the page numbers passed to get_page_url in fetch order, and the terminal
state. -/
structure LoopOut where
  deliveries : List Nat
  fetched : List Nat
  result : LoopRes
deriving DecidableEq

/-- Embedding of the main loop of run (src/main.rs lines 202-287), by
recursion on fuel. Each iteration fetches the current page, resolves the
sentinel if needed, then either (watermark set) processes the posts
against the watermark, or (watermark unset) takes the id of the last post
as the baseline; if no delivery failed and a next-page element parses, the
loop continues there, else it breaks with the current page and last_id. -/
def runLoop (env : Env) : Nat → Nat → Option Nat → LoopOut
  | 0, _, _ => ⟨[], [], .fuelOut⟩
  | fuel + 1, pageNumber, lastSentPost =>
    match env.fetch pageNumber with
    | none => ⟨[], [pageNumber], .err .reqwest⟩
    | some fr =>
      match resolvePage pageNumber fr with
      | .error e => ⟨[], [pageNumber], .err e⟩
      | .ok pn =>
        match lastSentPost with
        | some lastSentId =>
          let (ds, r) := processPosts env lastSentId fr.page.posts lastSentId
          match r with
          | .error e => ⟨ds, [pageNumber], .err e⟩
          | .ok (lastId, failed) =>
            if failed then ⟨ds, [pageNumber], .ok pn lastId⟩
            else
              match fr.page.nextNav with
              | none => ⟨ds, [pageNumber], .ok pn lastId⟩
              | some nav =>
                match navNext nav with
                | .error e => ⟨ds, [pageNumber], .err e⟩
                | .ok m =>
                  let out := runLoop env fuel m lastSentPost
                  ⟨ds ++ out.deliveries, pageNumber :: out.fetched, out.result⟩
        | none =>
          match fr.page.posts.getLast? with
          | none => ⟨[], [pageNumber], .err .scraping⟩
          | some lastPost =>
            match get_post_id lastPost with
            | .error e => ⟨[], [pageNumber], .err e⟩
            | .ok lastId =>
              match fr.page.nextNav with
              | none => ⟨[], [pageNumber], .ok pn lastId⟩
              | some nav =>
                match navNext nav with
                | .error e => ⟨[], [pageNumber], .err e⟩
                | .ok m =>
                  let out := runLoop env fuel m none
                  ⟨out.deliveries, pageNumber :: out.fetched, out.result⟩

/-- Terminal status of a whole run. -/
inductive Outcome where
  | ok
  | err (e : Error)
  | fuelOut
deriving DecidableEq

/-- Observable trace of a whole run: deliveries, fetched pages, the values
written to the two cursor files (none when the write never happened), and
the terminal status. -/
structure RunOut where
  deliveries : List Nat
  fetched : List Nat
  writtenPage : Option Nat
  writtenSent : Option Nat
  outcome : Outcome
deriving DecidableEq

/-- Embedding of run (src/main.rs lines 181-293): read the two cursor
values (a missing last_page becomes the u32 maximum sentinel), build the
client, read the webhook config, run the loop, and on a normal break
write last_page then last_post; every error short-circuits. -/
def run (env : Env) (fuel : Nat) : RunOut :=
  match try_read_u32 env.lastPageRead with
  | .error e => ⟨[], [], none, none, .err e⟩
  | .ok lastPage =>
    match try_read_u32 env.lastSentRead with
    | .error e => ⟨[], [], none, none, .err e⟩
    | .ok lastSent =>
      if env.clientOk then
        match env.webhookConf with
        | .error k => ⟨[], [], none, none, .err (.io k)⟩
        | .ok _ =>
          let out := runLoop env fuel (lastPage.getD U32MAX) lastSent
          match out.result with
          | .err e => ⟨out.deliveries, out.fetched, none, none, .err e⟩
          | .fuelOut => ⟨out.deliveries, out.fetched, none, none, .fuelOut⟩
          | .ok pn lastId =>
            match env.writePageErr with
            | some k => ⟨out.deliveries, out.fetched, none, none, .err (.io k)⟩
            | none =>
              match env.writeSentErr with
              | some k => ⟨out.deliveries, out.fetched, some pn, none, .err (.io k)⟩
              | none => ⟨out.deliveries, out.fetched, some pn, some lastId, .ok⟩
      else ⟨[], [], none, none, .err .reqwest⟩

/-- Embedding of main (src/main.rs lines 295-300): exit status 0 when run
returns Ok, 1 when it returns an error. -/
def exitCode : Outcome → Nat
  | .ok => 0
  | .err _ => 1
  | .fuelOut => 1

/-- A sequence of runs against the same store: each run must end Ok, and
its written cursor values become the stored values of the next run. -/
def runSeq : List (EnvBase × Nat) → Option Nat × Option Nat →
    Option (Option Nat × Option Nat)
  | [], st => some st
  | (b, fl) :: rest, (sp, ss) =>
    let r := run (mkEnv b sp ss) fl
    match r.outcome with
    | .ok => runSeq rest (r.writtenPage, r.writtenSent)
    | _ => none

/-- A fully well-formed post container whose id has the given decimal
digits, used for concrete test pages. -/
def mkPost (ds : List Char) : PostElem :=
  { dataContent := some (['p', 'o', 's', 't', '-'] ++ ds)
    timeElem := some ⟨[("datetime", ['t'])], []⟩
    usernameElem := some ⟨[("href", ['/', 'u'])], [['U']]⟩
    avatarElem := none
    contentChildren := some [.text ['h', 'i']] }

mutual
/-- The first text node found by depth-first descent into a node, as the
spec describes the contribution of a non-br non-a element. -/
def specFirstText : Node → Option (List Char)
  | .text t => some t
  | .elem _ _ cs => specFirstTextL cs
  | .other => none

/-- The first text node found by depth-first descent into a node list. -/
def specFirstTextL : List Node → Option (List Char)
  | [] => none
  | n :: ns =>
    match specFirstText n with
    | some t => some t
    | none => specFirstTextL ns
end

/-- Modelled from the spec: the per-node contribution of the content walk
as section 4.3 words it, with the nested case given by a direct
first-text-by-depth-first-descent recursion rather than by the head of a
full descendant-text iterator. -/
def specPiece : Node → List Char
  | .text t => t
  | .elem name attrs children =>
    if name = "br" then ['\n']
    else if name = "a" then (attrLookup "href" attrs).getD []
    else (specFirstTextL children).getD []
  | .other => []

/-- Modelled from the spec: raw_content as the concatenation of the
per-node contributions over the children in document order. -/
def specRawContent (cs : List Node) : List Char := (cs.map specPiece).flatten

/-- The ids of all posts of a page in document order, failing where
get_post_id fails on any of them. -/
def pageIdsE : List PostElem → Except Error (List Nat)
  | [] => .ok []
  | p :: ps =>
    match get_post_id p with
    | .error e => .error e
    | .ok i =>
      match pageIdsE ps with
      | .error e => .error e
      | .ok is => .ok (i :: is)

/-- The post ids a run would scan, page after page, following the same
fetching, resolution and pagination decisions as the loop but independent
of delivery; none when the scan cannot complete. -/
def scanLoop (env : Env) : Nat → Nat → Option (List Nat)
  | 0, _ => none
  | fuel + 1, pageNumber =>
    match env.fetch pageNumber with
    | none => none
    | some fr =>
      match resolvePage pageNumber fr with
      | .error _ => none
      | .ok _ =>
        match pageIdsE fr.page.posts with
        | .error _ => none
        | .ok ids =>
          match fr.page.nextNav with
          | none => some ids
          | some nav =>
            match navNext nav with
            | .error _ => none
            | .ok m => (scanLoop env fuel m).map (fun rest => ids ++ rest)

/-- Modelled from the claim wording of C1: deliver exactly the posts whose
id is strictly greater than the current in-memory watermark, advancing the
watermark to each delivered id. -/
def claimDeliveries : Nat → List Nat → List Nat
  | _, [] => []
  | w, i :: rest => if w < i then i :: claimDeliveries i rest else claimDeliveries w rest

/-- An environment base where the config read, client build and both
cursor writes succeed, with the given fetch and delivery oracles. -/
def mkBase (f : Nat → Option FetchResult) (dok : Nat → Bool) : EnvBase :=
  { webhookConf := .ok ['w']
    clientOk := true
    fetch := f
    deliverOk := dok
    writePageErr := none
    writeSentErr := none }

/-- Test world: page 1 holds posts 8 and 10 in ascending order, no next
page, every delivery succeeds. -/
def baseAsc : EnvBase :=
  mkBase (fun pn => if pn = 1 then some ⟨none, ⟨[mkPost ['8'], mkPost ['1', '0']], none⟩⟩ else none)
    (fun _ => true)

/-- Test environment: baseAsc with cursor at page 1, watermark 7. -/
def envAsc : Env := mkEnv baseAsc (some 1) (some 7)

/-- Test world: page 1 holds posts 10 and 8 in descending document order,
no next page, every delivery succeeds. -/
def baseDesc : EnvBase :=
  mkBase (fun pn => if pn = 1 then some ⟨none, ⟨[mkPost ['1', '0'], mkPost ['8']], none⟩⟩ else none)
    (fun _ => true)

/-- Test environment: baseDesc with cursor at page 1, watermark 7. -/
def envDesc : Env := mkEnv baseDesc (some 1) (some 7)

/-- Test world: page 1 holds posts 5, 6 and 7, no next page. -/
def base567 : EnvBase :=
  mkBase
    (fun pn => if pn = 1 then some ⟨none, ⟨[mkPost ['5'], mkPost ['6'], mkPost ['7']], none⟩⟩ else none)
    (fun _ => true)

/-- Test environment: base567 with stored page 1 and no stored watermark
(a baseline run). -/
def env567 : Env := mkEnv base567 (some 1) none

/-- Test world: page 1 holds posts 8, 9 and 10 and advertises a next page
2; delivery of post 9 is rejected by the sink. -/
def baseFail9 : EnvBase :=
  mkBase
    (fun pn =>
      if pn = 1 then
        some ⟨none, ⟨[mkPost ['8'], mkPost ['9'], mkPost ['1', '0']], some ⟨[], [['2']]⟩⟩⟩
      else none)
    (fun i => i != 9)

/-- Test environment: baseFail9 with cursor at page 1, watermark 7. -/
def envFail9 : Env := mkEnv baseFail9 (some 1) (some 7)

/-- Test world: page 1 holds post 8 and advertises next page 2; page 2
holds post 9, whose delivery is rejected. -/
def baseFail2pg : EnvBase :=
  mkBase
    (fun pn =>
      if pn = 1 then some ⟨none, ⟨[mkPost ['8']], some ⟨[], [['2']]⟩⟩⟩
      else if pn = 2 then some ⟨none, ⟨[mkPost ['9']], none⟩⟩
      else none)
    (fun i => i != 9)

/-- Test environment: baseFail2pg with cursor at page 1, watermark 7. -/
def envFail2pg : Env := mkEnv baseFail2pg (some 1) (some 7)

/-- Test world: page 1 holds post 8 and advertises next page 2, but
fetching page 2 fails at the transport. -/
def baseFetchFail : EnvBase :=
  mkBase
    (fun pn => if pn = 1 then some ⟨none, ⟨[mkPost ['8']], some ⟨[], [['2']]⟩⟩⟩ else none)
    (fun _ => true)

/-- Test environment: baseFetchFail with cursor at page 1, watermark 7. -/
def envFetchFail : Env := mkEnv baseFetchFail (some 1) (some 7)

/-- Test world: page 5 has no posts and advertises next page 3 (a smaller
number); page 3 has no posts and no next page. -/
def baseNavDown : EnvBase :=
  mkBase
    (fun pn =>
      if pn = 5 then some ⟨none, ⟨[], some ⟨[], [['3']]⟩⟩⟩
      else if pn = 3 then some ⟨none, ⟨[], none⟩⟩
      else none)
    (fun _ => true)

/-- Test environment: baseNavDown with cursor at page 5, watermark 1. -/
def envNavDown : Env := mkEnv baseNavDown (some 5) (some 1)

/-- Test world: page 5 has no posts and no next-page element. -/
def baseOnePage : EnvBase :=
  mkBase (fun pn => if pn = 5 then some ⟨none, ⟨[], none⟩⟩ else none) (fun _ => true)

/-- Test environment: baseOnePage with cursor at page 5, watermark 1. -/
def envOnePage : Env := mkEnv baseOnePage (some 5) (some 1)

/-- Test world: page 1 has no posts and no next-page element. -/
def baseEmptyPage : EnvBase :=
  mkBase (fun pn => if pn = 1 then some ⟨none, ⟨[], none⟩⟩ else none) (fun _ => true)

theorem splitOnNl_head (s : List Char) :
    (splitOnNl s).head? = some (s.takeWhile (fun c => c != '\n')) := by
  induction s with
  | nil => rfl
  | cons c cs ih =>
    by_cases hc : c = '\n'
    · subst hc
      simp [splitOnNl, List.takeWhile]
    · have hb : (c != '\n') = true := by simp [hc]
      cases h : splitOnNl cs with
      | nil => rw [h] at ih; simp at ih
      | cons p ps =>
        rw [h] at ih
        simp only [List.head?, Option.some_inj] at ih
        simp [splitOnNl, hc, h, List.takeWhile, hb, ih]

theorem takeWhile_ne_of_not_mem (l : List Char) (h : '\n' ∉ l) :
    l.takeWhile (fun c => c != '\n') = l := by
  induction l with
  | nil => rfl
  | cons c cs ih =>
    simp only [List.mem_cons, not_or] at h
    have hb : (c != '\n') = true := by simp [Ne.symm h.1]
    simp [List.takeWhile, hb, ih h.2]

/-- C5 counterexample: with content consisting of the marker followed
immediately by a newline, the derived title is the empty string, not the
default placeholder, because the Rust split iterator always yields a first
(here empty) piece. -/
theorem get_title_claim_cex :
    get_title ('T' :: 'u' :: 'o' :: 't' :: 'e' :: ':' :: '\n' :: ['x']) "Uusi tarjous".toList
      = [] ∧
    ([] : List Char) ≠ "Uusi tarjous".toList := by decide

/-- C5 (amended): when the content starts with the marker "Tuote:", the
title is the text after the marker up to (not including) the first
newline, which may be empty with no default substitution; when it does
not, the title is the default placeholder, provided the placeholder
contains no newline. -/
theorem get_title_amended (content default_title : List Char)
    (hd : '\n' ∉ default_title) :
    (∀ rest, stripPrefixL markerTuote content = some rest →
      get_title content default_title = rest.takeWhile (fun c => c != '\n')) ∧
    (stripPrefixL markerTuote content = none →
      get_title content default_title = default_title) := by
  constructor
  · intro rest hrest
    simp [get_title, hrest, splitOnNl_head]
  · intro hnone
    simp [get_title, hnone, splitOnNl_head, takeWhile_ne_of_not_mem default_title hd]

/-- C5 witness: the two concrete examples of the claim, at the default
placeholder the program uses. -/
theorem get_title_amended_witness :
    get_title "Tuote:Widget\nmore text".toList "Uusi tarjous".toList
      = "Widget\nmore text".toList.takeWhile (fun c => c != '\n') ∧
    get_title "no marker here".toList "Uusi tarjous".toList = "Uusi tarjous".toList := by
  constructor
  · exact (get_title_amended "Tuote:Widget\nmore text".toList "Uusi tarjous".toList
      (by decide)).1 "Widget\nmore text".toList (by decide)
  · exact (get_title_amended "no marker here".toList "Uusi tarjous".toList
      (by decide)).2 (by decide)

theorem takeBytes_utf8Len_take (s : List Char) :
    ∀ n, takeBytes s (utf8Len (s.take n)) = s.take n := by
  induction s with
  | nil => intro n; simp [takeBytes]
  | cons c cs ih =>
    intro n
    cases n with
    | zero =>
      have hpos := Char.utf8Size_pos c
      simp [utf8Len, takeBytes]
      omega
    | succ m =>
      simp only [List.take, utf8Len, takeBytes]
      rw [if_pos (Nat.le_add_right _ _)]
      simp [ih m]

theorem charIndicesAux_get (s : List Char) :
    ∀ n off, (charIndicesAux s off).get? n =
      (s.get? n).map (fun c => (off + utf8Len (s.take n), c)) := by
  induction s with
  | nil => intro n off; simp [charIndicesAux]
  | cons c cs ih =>
    intro n off
    cases n with
    | zero => simp [charIndicesAux, utf8Len]
    | succ m =>
      simp only [charIndicesAux, List.get?, List.take, utf8Len, ih m]
      cases cs.get? m with
      | none => simp
      | some c2 => simp; omega

theorem truncate_eq_take (s : List Char) (n : Nat) : truncate s n = s.take n := by
  unfold truncate
  have h := charIndicesAux_get s n 0
  rw [show charIndicesAux s 0 = charIndices s from rfl] at h
  cases hg : s.get? n with
  | none =>
    rw [hg] at h
    simp only [Option.map_none'] at h
    rw [h]
    have : s.length ≤ n := List.get?_eq_none.mp hg
    rw [List.take_of_length_le this]
  | some c =>
    rw [hg] at h
    simp only [Option.map_some', Nat.zero_add] at h
    rw [h]
    exact takeBytes_utf8Len_take s n

theorem utf8Encode_append (a b : List Char) :
    utf8Encode (a ++ b) = utf8Encode a ++ utf8Encode b := by
  induction a with
  | nil => rfl
  | cons c cs ih => simp [utf8Encode, ih]

theorem utf8Encode_prefix_mono (a b : List Char) (h : a <+: b) :
    utf8Encode a <+: utf8Encode b := by
  obtain ⟨t, rfl⟩ := h
  exact ⟨utf8Encode t, (utf8Encode_append a t).symm⟩

/-- C6: truncate cuts a pure prefix at a codepoint boundary: the result is
a prefix of the input, an input of at most max_chars codepoints is
returned unchanged, a longer input is cut to exactly max_chars codepoints,
and the UTF-8 encoding of the result is a byte prefix of the encoding of
the input, so no multi-byte character is ever split. -/
theorem truncate_codepoint_safe (s : List Char) (n : Nat) :
    truncate s n <+: s ∧
    (s.length ≤ n → truncate s n = s) ∧
    (n < s.length → (truncate s n).length = n) ∧
    utf8Encode (truncate s n) <+: utf8Encode s := by
  rw [truncate_eq_take]
  refine ⟨List.take_prefix n s, fun h => List.take_of_length_le h, fun h => ?_,
    utf8Encode_prefix_mono _ _ (List.take_prefix n s)⟩
  simp [List.length_take]
  omega

/-- C6 witness: a string with two multi-byte characters truncated to two
codepoints keeps exactly two codepoints and its encoding stays a byte
prefix of the original encoding. -/
theorem truncate_codepoint_safe_witness :
    (['a', 'ä', '€', 'x'] : List Char).length ≤ 9 ∧
    truncate ['a', 'ä', '€', 'x'] 9 = ['a', 'ä', '€', 'x'] ∧
    2 < (['a', 'ä', '€', 'x'] : List Char).length ∧
    (truncate ['a', 'ä', '€', 'x'] 2).length = 2 ∧
    utf8Encode (truncate ['a', 'ä', '€', 'x'] 2) <+: utf8Encode ['a', 'ä', '€', 'x'] :=
  ⟨by decide, (truncate_codepoint_safe ['a', 'ä', '€', 'x'] 9).2.1 (by decide),
    by decide, (truncate_codepoint_safe ['a', 'ä', '€', 'x'] 2).2.2.1 (by decide),
    (truncate_codepoint_safe ['a', 'ä', '€', 'x'] 2).2.2.2⟩

mutual
theorem collectTexts_head (n : Node) : (collectTexts n).head? = specFirstText n := by
  cases n with
  | text t => rfl
  | elem name attrs cs => exact collectTextsL_head cs
  | other => rfl

theorem collectTextsL_head (ns : List Node) :
    (collectTextsL ns).head? = specFirstTextL ns := by
  cases ns with
  | nil => rfl
  | cons n rest =>
    have h1 := collectTexts_head n
    have h2 := collectTextsL_head rest
    simp only [collectTextsL, specFirstTextL, ← h1, ← h2]
    cases collectTexts n with
    | nil => simp
    | cons a l => simp
end

theorem contentPiece_eq_specPiece (n : Node) : contentPiece n = specPiece n := by
  cases n with
  | text t => rfl
  | elem name attrs cs => simp [contentPiece, specPiece, collectTextsL_head cs]
  | other => rfl

/-- C7: the content walk of get_content equals the per-kind concatenation
the spec describes: text verbatim, br a newline, a its href target, any
other element the first text found by depth-first descent, anything else
nothing. -/
theorem content_walk_spec (cs : List Node) : rawContent cs = specRawContent cs := by
  induction cs with
  | nil => rfl
  | cons n ns ih => simp [rawContent, specRawContent, contentPiece_eq_specPiece n, ih]

/-- C8 counterexample: an I/O error arising while reading an existing
record (here permission denied during the read) is swallowed into
Ok(None) instead of propagating as the claim requires of I/O errors
unrelated to absence. -/
theorem try_read_claim_cex :
    try_read_u32 (.opened (.error .permissionDenied)) = .ok none ∧
    try_read_u32 (.opened (.error .permissionDenied))
      ≠ .error (.io .permissionDenied) :=
  ⟨rfl, by simp [try_read_u32]⟩

/-- C8 (amended): a missing record or any failure while reading an opened
record yields None rather than an error; I/O errors while opening the
file, other than absence, propagate; a successful read yields the
value. -/
theorem try_read_contract (k : IOKind) (v : Nat) (hk : k ≠ .notFound) :
    try_read_u32 (.openFail .notFound) = .ok none ∧
    try_read_u32 (.opened (.error k)) = .ok none ∧
    try_read_u32 (.openFail k) = .error (.io k) ∧
    try_read_u32 (.opened (.ok v)) = .ok (some v) := by
  refine ⟨rfl, rfl, ?_, rfl⟩
  cases k with
  | notFound => exact absurd rfl hk
  | permissionDenied => rfl
  | unexpectedEof => rfl
  | otherKind => rfl

/-- C8 witness: the amended contract at a concrete non-absence error kind
and value. -/
theorem try_read_contract_witness :
    try_read_u32 (.openFail .notFound) = .ok none ∧
    try_read_u32 (.opened (.error .permissionDenied)) = .ok none ∧
    try_read_u32 (.openFail .permissionDenied) = .error (.io .permissionDenied) ∧
    try_read_u32 (.opened (.ok 5)) = .ok (some 5) :=
  try_read_contract .permissionDenied 5 (by decide)

theorem getLast?_cons_getD (l : List Nat) :
    ∀ a d, (a :: l).getLast?.getD d = l.getLast?.getD a := by
  induction l with
  | nil => intro a d; rfl
  | cons b m ih =>
    intro a d
    rw [List.getLast?_cons_cons, ih b d, ih b a]

theorem processPosts_last (env : Env) (x : Nat) :
    ∀ ps temp ds t f, processPosts env x ps temp = (ds, .ok (t, f)) →
      t = ds.getLast?.getD temp := by
  intro ps
  induction ps with
  | nil =>
    intro temp ds t f h
    simp only [processPosts, Prod.mk.injEq, Except.ok.injEq] at h
    obtain ⟨h1, h2, _⟩ := h
    subst h1
    simp [← h2]
  | cons p rest ih =>
    intro temp ds t f h
    simp only [processPosts] at h
    split at h
    next e heq => simp at h
    next pid heq =>
      split at h
      · split at h
        next e2 hex => simp at h
        next u hex =>
          split at h
          · cases hrec : processPosts env x rest pid with
            | mk ds2 r2 =>
              rw [hrec] at h
              simp only [Prod.mk.injEq] at h
              obtain ⟨h1, h2⟩ := h
              subst h1
              rw [h2] at hrec
              rw [getLast?_cons_getD]
              exact ih pid ds2 t f hrec
          · simp only [Prod.mk.injEq, Except.ok.injEq] at h
            obtain ⟨h1, h2, _⟩ := h
            subst h1
            simp [← h2]
      · exact ih temp ds t f h

theorem processPosts_temp_mono (env : Env) (x : Nat) :
    ∀ ps temp ds t f, processPosts env x ps temp = (ds, .ok (t, f)) →
      t = temp ∨ x < t := by
  intro ps
  induction ps with
  | nil =>
    intro temp ds t f h
    simp only [processPosts, Prod.mk.injEq, Except.ok.injEq] at h
    exact Or.inl h.2.1.symm
  | cons p rest ih =>
    intro temp ds t f h
    simp only [processPosts] at h
    split at h
    next e heq => simp at h
    next pid heq =>
      split at h
      next hlt =>
        split at h
        next e2 hex => simp at h
        next u hex =>
          split at h
          · cases hrec : processPosts env x rest pid with
            | mk ds2 r2 =>
              rw [hrec] at h
              simp only [Prod.mk.injEq] at h
              obtain ⟨h1, h2⟩ := h
              rw [h2] at hrec
              rcases ih pid ds2 t f hrec with heq2 | hgt
              · exact Or.inr (heq2 ▸ hlt)
              · exact Or.inr hgt
          · simp only [Prod.mk.injEq, Except.ok.injEq] at h
            exact Or.inl h.2.1.symm
      next hlt => exact ih temp ds t f h

theorem processPosts_all_ok (env : Env) (x : Nat)
    (hall : ∀ i, env.deliverOk i = true) :
    ∀ ps temp ds t f, processPosts env x ps temp = (ds, .ok (t, f)) →
      f = false ∧ ∃ ids, pageIdsE ps = .ok ids ∧ ds = ids.filter (fun i => x < i) := by
  intro ps
  induction ps with
  | nil =>
    intro temp ds t f h
    simp only [processPosts, Prod.mk.injEq, Except.ok.injEq] at h
    exact ⟨h.2.2.symm, [], rfl, by simp [← h.1]⟩
  | cons p rest ih =>
    intro temp ds t f h
    simp only [processPosts] at h
    split at h
    next e heq => simp at h
    next pid heq =>
      split at h
      next hlt =>
        split at h
        next e2 hex => simp at h
        next u hex =>
          split at h
          next hd =>
            cases hrec : processPosts env x rest pid with
            | mk ds2 r2 =>
              rw [hrec] at h
              simp only [Prod.mk.injEq] at h
              obtain ⟨h1, h2⟩ := h
              rw [h2] at hrec
              obtain ⟨hf, ids, hids, hds⟩ := ih pid ds2 t f hrec
              refine ⟨hf, pid :: ids, ?_, ?_⟩
              · simp [pageIdsE, heq, hids]
              · rw [← h1, hds]
                simp [List.filter, hlt]
          next hd => exact absurd (hall pid) hd
      next hlt =>
        obtain ⟨hf, ids, hids, hds⟩ := ih temp ds t f h
        refine ⟨hf, pid :: ids, ?_, ?_⟩
        · simp [pageIdsE, heq, hids]
        · rw [hds]
          simp [List.filter, hlt]

theorem runLoop_baseline_deliveries (env : Env) :
    ∀ fuel pn, (runLoop env fuel pn none).deliveries = [] := by
  intro fuel
  induction fuel with
  | zero => intro pn; rfl
  | succ m ih =>
    intro pn
    cases hfe : env.fetch pn with
    | none => simp [runLoop, hfe]
    | some fr =>
      cases hres : resolvePage pn fr with
      | error e => simp [runLoop, hfe, hres]
      | ok rp =>
        cases hlast : fr.page.posts.getLast? with
        | none => simp [runLoop, hfe, hres, hlast]
        | some lp =>
          cases hid : get_post_id lp with
          | error e => simp [runLoop, hfe, hres, hlast, hid]
          | ok lid =>
            cases hnav : fr.page.nextNav with
            | none => simp [runLoop, hfe, hres, hlast, hid, hnav]
            | some nav =>
              cases hnn : navNext nav with
              | error e => simp [runLoop, hfe, hres, hlast, hid, hnav, hnn]
              | ok nx => simp [runLoop, hfe, hres, hlast, hid, hnav, hnn, ih nx]

theorem runLoop_sent_mono (env : Env) (x : Nat) :
    ∀ fuel pn pn2 lid,
      (runLoop env fuel pn (some x)).result = .ok pn2 lid → x ≤ lid := by
  intro fuel
  induction fuel with
  | zero => intro pn pn2 lid h; simp [runLoop] at h
  | succ m ih =>
    intro pn pn2 lid h
    simp only [runLoop] at h
    split at h
    · simp at h
    next fr hfe =>
      split at h
      next e hres => simp at h
      next rp hres =>
        split at h
        next e hr2 => simp at h
        next lastId failed hr2 =>
          have hfull := Prod.mk.eta (p := processPosts env x fr.page.posts x)
          rw [hr2] at hfull
          have hmono := processPosts_temp_mono env x fr.page.posts x
            (processPosts env x fr.page.posts x).1 lastId failed hfull.symm
          split at h
          · simp only [LoopOut.result, LoopRes.ok.injEq] at h
            obtain ⟨h1, h2⟩ := h
            rcases hmono with he | hlt <;> omega
          · split at h
            next hnav =>
              simp only [LoopOut.result, LoopRes.ok.injEq] at h
              obtain ⟨h1, h2⟩ := h
              rcases hmono with he | hlt <;> omega
            next nav hnav =>
              split at h
              next e hnn => simp at h
              next nx hnn =>
                simp only [LoopOut.result] at h
                exact ih nx pn2 lid h

theorem runLoop_scan (env : Env) (x : Nat)
    (hall : ∀ i, env.deliverOk i = true) :
    ∀ fuel pn pn2 lid,
      (runLoop env fuel pn (some x)).result = .ok pn2 lid →
      ∃ L, scanLoop env fuel pn = some L ∧
        (runLoop env fuel pn (some x)).deliveries = L.filter (fun i => x < i) := by
  intro fuel
  induction fuel with
  | zero => intro pn pn2 lid h; simp [runLoop] at h
  | succ m ih =>
    intro pn pn2 lid h
    simp only [runLoop] at h
    split at h
    · simp at h
    next fr hfe =>
      split at h
      next e hres => simp at h
      next rp hres =>
        split at h
        next e hr2 => simp at h
        next lastId failed hr2 =>
          have hfull := Prod.mk.eta (p := processPosts env x fr.page.posts x)
          rw [hr2] at hfull
          obtain ⟨hfail, ids, hids, hds⟩ :=
            processPosts_all_ok env x hall fr.page.posts x
              (processPosts env x fr.page.posts x).1 lastId failed hfull.symm
          subst hfail
          rw [if_neg (by simp)] at h
          split at h
          next hnav =>
            refine ⟨ids, ?_, ?_⟩
            · simp [scanLoop, hfe, hres, hids, hnav]
            · simp [runLoop, hfe, hres, hr2, hnav, hds]
          next nav hnav =>
            split at h
            next e hnn => simp at h
            next nx hnn =>
              simp only [LoopOut.result] at h
              obtain ⟨L2, hscan2, hdel2⟩ := ih nx pn2 lid h
              refine ⟨ids ++ L2, ?_, ?_⟩
              · simp [scanLoop, hfe, hres, hids, hnav, hnn, hscan2]
              · simp [runLoop, hfe, hres, hr2, hnav, hnn, hds, hdel2,
                  List.filter_append]

theorem runLoop_fetched_head (env : Env) (fuel pn : Nat) (w : Option Nat) :
    (runLoop env (fuel + 1) pn w).fetched.head? = some pn := by
  simp only [runLoop]
  repeat' split
  all_goals rfl

theorem runLoop_chain (env : Env)
    (H : ∀ p fr nav m2, env.fetch p = some fr → fr.page.nextNav = some nav →
      navNext nav = .ok m2 → p < m2) :
    ∀ fuel pn w, List.Chain' (fun a b => a < b) (runLoop env fuel pn w).fetched := by
  intro fuel
  induction fuel with
  | zero => intro pn w; simp [runLoop]
  | succ m ih =>
    intro pn w
    simp only [runLoop]
    split
    · simp
    next fr hfe =>
      split
      next e hres => simp
      next rp hres =>
        split
        next _w lastSentId =>
          split
          next e hr2 => exact List.chain'_singleton _
          next lastId failed hr2 =>
            split
            · exact List.chain'_singleton _
            · split
              next hnav => exact List.chain'_singleton _
              next nav hnav =>
                split
                next e hnn => exact List.chain'_singleton _
                next nx hnn =>
                  rw [List.chain'_cons']
                  refine ⟨?_, ih nx (some lastSentId)⟩
                  intro b hb
                  cases m with
                  | zero => simp [runLoop] at hb
                  | succ k =>
                    rw [runLoop_fetched_head] at hb
                    simp at hb
                    subst hb
                    exact H pn fr nav _ hfe hnav hnn
        next _w =>
          split
          next hlast => exact List.chain'_singleton _
          next lp hlast =>
            split
            next e hid => exact List.chain'_singleton _
            next lid hid =>
              split
              next hnav => exact List.chain'_singleton _
              next nav hnav =>
                split
                next e hnn => exact List.chain'_singleton _
                next nx hnn =>
                  rw [List.chain'_cons']
                  refine ⟨?_, ih nx none⟩
                  intro b hb
                  cases m with
                  | zero => simp [runLoop] at hb
                  | succ k =>
                    rw [runLoop_fetched_head] at hb
                    simp at hb
                    subst hb
                    exact H pn fr nav _ hfe hnav hnn

theorem mkEnv_clientOk (b : EnvBase) (sp ss : Option Nat) :
    (mkEnv b sp ss).clientOk = b.clientOk := rfl

theorem mkEnv_webhookConf (b : EnvBase) (sp ss : Option Nat) :
    (mkEnv b sp ss).webhookConf = b.webhookConf := rfl

theorem mkEnv_fetch (b : EnvBase) (sp ss : Option Nat) :
    (mkEnv b sp ss).fetch = b.fetch := rfl

theorem mkEnv_deliverOk (b : EnvBase) (sp ss : Option Nat) :
    (mkEnv b sp ss).deliverOk = b.deliverOk := rfl

theorem mkEnv_writePageErr (b : EnvBase) (sp ss : Option Nat) :
    (mkEnv b sp ss).writePageErr = b.writePageErr := rfl

theorem mkEnv_writeSentErr (b : EnvBase) (sp ss : Option Nat) :
    (mkEnv b sp ss).writeSentErr = b.writeSentErr := rfl

theorem try_read_mkEnv_page (b : EnvBase) (sp ss : Option Nat) :
    try_read_u32 (mkEnv b sp ss).lastPageRead = .ok sp := by
  cases sp with
  | some p => rfl
  | none => rfl

theorem try_read_mkEnv_sent (b : EnvBase) (sp ss : Option Nat) :
    try_read_u32 (mkEnv b sp ss).lastSentRead = .ok ss := by
  cases ss with
  | some s => rfl
  | none => rfl

theorem run_sent_mono_core (env : Env) (x : Nat) (fuel : Nat)
    (hs : try_read_u32 env.lastSentRead = .ok (some x))
    (h : (run env fuel).outcome = .ok) :
    ∃ s, (run env fuel).writtenSent = some s ∧ x ≤ s := by
  cases hp : try_read_u32 env.lastPageRead with
  | error e => simp [run, hp] at h
  | ok lastPage =>
    by_cases hc : env.clientOk = true
    · cases hw : env.webhookConf with
      | error k => simp [run, hp, hs, hc, hw] at h
      | ok wf =>
        cases hres : (runLoop env fuel (lastPage.getD U32MAX) (some x)).result with
        | err e => simp [run, hp, hs, hc, hw, hres] at h
        | fuelOut => simp [run, hp, hs, hc, hw, hres] at h
        | ok pn lid =>
          have hx := runLoop_sent_mono env x fuel (lastPage.getD U32MAX) pn lid hres
          cases hw1 : env.writePageErr with
          | some k => simp [run, hp, hs, hc, hw, hres, hw1] at h
          | none =>
            cases hw2 : env.writeSentErr with
            | some k => simp [run, hp, hs, hc, hw, hres, hw1, hw2] at h
            | none =>
              refine ⟨lid, ?_, hx⟩
              simp [run, hp, hs, hc, hw, hres, hw1, hw2]
    · simp [run, hp, hs, hc] at h

theorem runSeq_sent_mono :
    ∀ (es : List (EnvBase × Nat)) (sp : Option Nat) (x : Nat)
      (st : Option Nat × Option Nat),
      runSeq es (sp, some x) = some st → ∃ s, st.2 = some s ∧ x ≤ s := by
  intro es
  induction es with
  | nil =>
    intro sp x st h
    simp only [runSeq, Option.some_inj] at h
    subst h
    exact ⟨x, rfl, Nat.le_refl x⟩
  | cons e rest ih =>
    intro sp x st h
    obtain ⟨b, fl⟩ := e
    simp only [runSeq] at h
    split at h
    next hoc =>
      obtain ⟨s1, hs1, hxs1⟩ :=
        run_sent_mono_core (mkEnv b sp (some x)) x fl (try_read_mkEnv_sent b sp (some x)) hoc
      rw [hs1] at h
      obtain ⟨s, hst, hle⟩ := ih _ s1 st h
      exact ⟨s, hst, Nat.le_trans hxs1 hle⟩
    next hoc => cases h

/-- C1 counterexample: on a page whose posts appear in the order 10, 8
with the stored watermark at 7, the code delivers both posts, because each
is compared against the watermark loaded at run start; under the claim as
stated the watermark would advance to 10 after the first delivery and post
8 (not greater than 10) would not be delivered. -/
theorem watermark_claim_cex :
    (run envDesc 2).deliveries = [10, 8] ∧
    claimDeliveries 7 [10, 8] = [10] ∧
    (run envDesc 2).deliveries ≠ claimDeliveries 7 [10, 8] := by decide

/-- C1 (amended): posts are delivered exactly when their id is strictly
greater than the watermark loaded at run start (not the advancing
in-memory value), and across any sequence of successful runs the persisted
last_sent_id never decreases. -/
theorem watermark_amended :
    (∀ (b : EnvBase) (fuel p x : Nat) (L : List Nat),
      (∀ i, b.deliverOk i = true) →
      (run (mkEnv b (some p) (some x)) fuel).outcome = .ok →
      scanLoop (mkEnv b (some p) (some x)) fuel p = some L →
      (run (mkEnv b (some p) (some x)) fuel).deliveries = L.filter (fun i => x < i)) ∧
    (∀ (es : List (EnvBase × Nat)) (sp : Option Nat) (x : Nat)
      (st : Option Nat × Option Nat),
      runSeq es (sp, some x) = some st → ∃ s, st.2 = some s ∧ x ≤ s) := by
  constructor
  · intro b fuel p x L hall hok hscan
    by_cases hc : b.clientOk = true
    case neg =>
      exfalso
      simp [run, try_read_mkEnv_page, try_read_mkEnv_sent, mkEnv_clientOk, hc] at hok
    cases hw : b.webhookConf with
    | error k =>
      exfalso
      simp [run, try_read_mkEnv_page, try_read_mkEnv_sent, mkEnv_clientOk,
        mkEnv_webhookConf, hc, hw] at hok
    | ok wf =>
      cases hres : (runLoop (mkEnv b (some p) (some x)) fuel p (some x)).result with
      | err e =>
        exfalso
        simp [run, try_read_mkEnv_page, try_read_mkEnv_sent, mkEnv_clientOk,
          mkEnv_webhookConf, hc, hw, hres] at hok
      | fuelOut =>
        exfalso
        simp [run, try_read_mkEnv_page, try_read_mkEnv_sent, mkEnv_clientOk,
          mkEnv_webhookConf, hc, hw, hres] at hok
      | ok pn lid =>
        have hallE : ∀ i, (mkEnv b (some p) (some x)).deliverOk i = true := hall
        obtain ⟨L2, hscan2, hdel⟩ :=
          runLoop_scan (mkEnv b (some p) (some x)) x hallE fuel p pn lid hres
        rw [hscan] at hscan2
        have hL : L = L2 := Option.some_inj.mp hscan2
        subst hL
        cases hw1 : b.writePageErr with
        | some k =>
          simp [run, try_read_mkEnv_page, try_read_mkEnv_sent, mkEnv_clientOk,
            mkEnv_webhookConf, mkEnv_writePageErr, hc, hw, hres, hw1, hdel]
        | none =>
          cases hw2 : b.writeSentErr with
          | some k =>
            simp [run, try_read_mkEnv_page, try_read_mkEnv_sent, mkEnv_clientOk,
              mkEnv_webhookConf, mkEnv_writePageErr, mkEnv_writeSentErr,
              hc, hw, hres, hw1, hw2, hdel]
          | none =>
            simp [run, try_read_mkEnv_page, try_read_mkEnv_sent, mkEnv_clientOk,
              mkEnv_webhookConf, mkEnv_writePageErr, mkEnv_writeSentErr,
              hc, hw, hres, hw1, hw2, hdel]
  · exact runSeq_sent_mono

/-- C1 witness: on a page with posts 8 and 10 and watermark 7, both are
delivered (both exceed the loaded watermark), and a one-run sequence
starting from watermark 7 ends at a persisted watermark of at least 7. -/
theorem watermark_amended_witness :
    (run (mkEnv baseAsc (some 1) (some 7)) 2).deliveries
      = List.filter (fun i => 7 < i) [8, 10] ∧
    (∃ s, ((some 1, some 10) : Option Nat × Option Nat).2 = some s ∧ 7 ≤ s) :=
  ⟨watermark_amended.1 baseAsc 2 1 7 [8, 10] (fun _ => rfl) (by decide) (by decide),
    watermark_amended.2 [(baseAsc, 2)] (some 1) 7 (some 1, some 10) (by decide)⟩

/-- C2: a run whose stored last_sent_id reads as unset delivers nothing on
any scanned page; and against a single page with a well-formed last post,
the run ends Ok, does not advance the page, and persists the id of the
last post in document order as the watermark. -/
theorem baseline_run (env : Env) (fuel : Nat)
    (hs : try_read_u32 env.lastSentRead = .ok none) :
    (run env fuel).deliveries = [] ∧
    (∀ (b : EnvBase) (p i fuel2 : Nat) (lp : PostElem) (fr : FetchResult) (wf : List Char),
      b.clientOk = true → b.webhookConf = .ok wf → p ≠ U32MAX →
      b.fetch p = some fr → fr.page.nextNav = none →
      fr.page.posts.getLast? = some lp → get_post_id lp = .ok i →
      b.writePageErr = none → b.writeSentErr = none →
      run (mkEnv b (some p) none) (fuel2 + 1) = ⟨[], [p], some p, some i, .ok⟩) := by
  constructor
  · cases hp : try_read_u32 env.lastPageRead with
    | error e => simp [run, hp]
    | ok lastPage =>
      by_cases hc : env.clientOk = true
      · cases hw : env.webhookConf with
        | error k => simp [run, hp, hs, hc, hw]
        | ok wf =>
          cases hres : (runLoop env fuel (lastPage.getD U32MAX) none).result with
          | err e => simp [run, hp, hs, hc, hw, hres, runLoop_baseline_deliveries]
          | fuelOut => simp [run, hp, hs, hc, hw, hres, runLoop_baseline_deliveries]
          | ok pn lid =>
            cases hw1 : env.writePageErr with
            | some k =>
              simp [run, hp, hs, hc, hw, hres, hw1, runLoop_baseline_deliveries]
            | none =>
              cases hw2 : env.writeSentErr with
              | some k =>
                simp [run, hp, hs, hc, hw, hres, hw1, hw2, runLoop_baseline_deliveries]
              | none =>
                simp [run, hp, hs, hc, hw, hres, hw1, hw2, runLoop_baseline_deliveries]
      · simp [run, hp, hs, hc]
  · intro b p i fuel2 lp fr wf hc hwc hp hf hnav hlast hid hw1 hw2
    have hrl : runLoop (mkEnv b (some p) none) (fuel2 + 1) p none = ⟨[], [p], .ok p i⟩ := by
      simp [runLoop, mkEnv_fetch, hf, resolvePage, hp, hlast, hid, hnav]
    simp [run, try_read_mkEnv_page, try_read_mkEnv_sent, mkEnv_clientOk,
      mkEnv_webhookConf, mkEnv_writePageErr, mkEnv_writeSentErr,
      hc, hwc, hrl, hw1, hw2]

/-- C2 witness: a baseline run against a page holding posts 5, 6, 7 in
document order delivers nothing and persists last_sent_id = 7 without
advancing the page. -/
theorem baseline_run_witness :
    (run env567 1).deliveries = [] ∧
    run (mkEnv base567 (some 1) none) (0 + 1) = ⟨[], [1], some 1, some 7, .ok⟩ :=
  ⟨(baseline_run env567 1 rfl).1,
    (baseline_run env567 1 rfl).2 base567 1 7 0 (mkPost ['7'])
      ⟨none, ⟨[mkPost ['5'], mkPost ['6'], mkPost ['7']], none⟩⟩ ['w']
      rfl rfl (by decide) rfl rfl rfl rfl rfl rfl⟩

/-- C3 counterexample: with watermark 7, page 1 delivering post 8
successfully and the next page failing to deliver post 9, the run ends Ok
but persists last_sent_id = 7, not 8, the id of the last successful
delivery: the in-memory tracker is reset to the loaded watermark on every
page, so the claim fails for multi-page runs. -/
theorem partial_failure_claim_cex :
    (run envFail2pg 3).deliveries = [8] ∧
    (run envFail2pg 3).outcome = .ok ∧
    (run envFail2pg 3).writtenSent = some 7 ∧
    (some 7 : Option Nat) ≠ some 8 := by decide

/-- C3 (amended): when a delivery fails on the page being scanned, the run
stops there: nothing further is fetched, the current (not the next) page
number is persisted, the persisted watermark is the id of the last
successful delivery on that page, or the watermark loaded at run start if
none succeeded there, and the process exits 0. -/
theorem partial_failure_checkpoint (b : EnvBase) (p x fuel : Nat) (fr : FetchResult)
    (ds : List Nat) (t : Nat) (wf : List Char)
    (hc : b.clientOk = true) (hwc : b.webhookConf = .ok wf) (hp : p ≠ U32MAX)
    (hf : b.fetch p = some fr)
    (hproc : processPosts (mkEnv b (some p) (some x)) x fr.page.posts x
      = (ds, .ok (t, true)))
    (hw1 : b.writePageErr = none) (hw2 : b.writeSentErr = none) :
    run (mkEnv b (some p) (some x)) (fuel + 1) = ⟨ds, [p], some p, some t, .ok⟩ ∧
    t = ds.getLast?.getD x ∧
    exitCode (run (mkEnv b (some p) (some x)) (fuel + 1)).outcome = 0 := by
  have hrl : runLoop (mkEnv b (some p) (some x)) (fuel + 1) p (some x)
      = ⟨ds, [p], .ok p t⟩ := by
    simp [runLoop, mkEnv_fetch, hf, resolvePage, hp, hproc]
  have hrun : run (mkEnv b (some p) (some x)) (fuel + 1)
      = ⟨ds, [p], some p, some t, .ok⟩ := by
    simp [run, try_read_mkEnv_page, try_read_mkEnv_sent, mkEnv_clientOk,
      mkEnv_webhookConf, mkEnv_writePageErr, mkEnv_writeSentErr,
      hc, hwc, hrl, hw1, hw2]
  exact ⟨hrun,
    processPosts_last (mkEnv b (some p) (some x)) x fr.page.posts x ds t true hproc,
    by rw [hrun]; rfl⟩

/-- C3 witness: the concrete scenario of the claim: watermark 7, one page
with posts 8, 9, 10 where delivery of 9 fails; exactly 8 is delivered,
last_sent_id is persisted as 8, the page number stays at 1 although a next
page is advertised, and the exit code is 0. -/
theorem partial_failure_checkpoint_witness :
    run (mkEnv baseFail9 (some 1) (some 7)) (0 + 1) = ⟨[8], [1], some 1, some 8, .ok⟩ ∧
    (8 : Nat) = [8].getLast?.getD 7 ∧
    exitCode (run (mkEnv baseFail9 (some 1) (some 7)) (0 + 1)).outcome = 0 :=
  partial_failure_checkpoint baseFail9 1 7 0
    ⟨none, ⟨[mkPost ['8'], mkPost ['9'], mkPost ['1', '0']], some ⟨[], [['2']]⟩⟩⟩
    [8] 8 ['w'] rfl rfl (by decide) rfl rfl rfl rfl

/-- C4: when a run ends in an error (scraping, fetch, configuration or
cursor-read failure) in an environment whose cursor writes would succeed,
neither last_page nor last_sent_id is written and the process exits 1,
regardless of how many posts earlier pages had already delivered. -/
theorem fatal_error_atomicity (env : Env) (fuel : Nat) (e : Error)
    (hw1 : env.writePageErr = none) (hw2 : env.writeSentErr = none)
    (h : (run env fuel).outcome = .err e) :
    (run env fuel).writtenPage = none ∧ (run env fuel).writtenSent = none ∧
    exitCode (run env fuel).outcome = 1 := by
  have key : (run env fuel).writtenPage = none ∧ (run env fuel).writtenSent = none := by
    cases hp : try_read_u32 env.lastPageRead with
    | error e2 => simp [run, hp]
    | ok lastPage =>
      cases hs : try_read_u32 env.lastSentRead with
      | error e2 => simp [run, hp, hs]
      | ok lastSent =>
        by_cases hc : env.clientOk = true
        · cases hw : env.webhookConf with
          | error k => simp [run, hp, hs, hc, hw]
          | ok wf =>
            cases hres : (runLoop env fuel (lastPage.getD U32MAX) lastSent).result with
            | err e2 => simp [run, hp, hs, hc, hw, hres]
            | fuelOut => simp [run, hp, hs, hc, hw, hres]
            | ok pn lid =>
              exfalso
              simp [run, hp, hs, hc, hw, hres, hw1, hw2] at h
        · simp [run, hp, hs, hc]
  exact ⟨key.1, key.2, by rw [h]; rfl⟩

/-- C4 witness: page 1 delivers post 8, but fetching the advertised page 2
fails at the transport; the delivery happened, yet nothing is written to
either cursor record and the exit code is 1. -/
theorem fatal_error_atomicity_witness :
    (run envFetchFail 3).deliveries = [8] ∧
    (run envFetchFail 3).writtenPage = none ∧
    (run envFetchFail 3).writtenSent = none ∧
    exitCode (run envFetchFail 3).outcome = 1 :=
  ⟨by decide, (fatal_error_atomicity envFetchFail 3 .reqwest rfl rfl (by decide)).1,
    (fatal_error_atomicity envFetchFail 3 .reqwest rfl rfl (by decide)).2.1,
    (fatal_error_atomicity envFetchFail 3 .reqwest rfl rfl (by decide)).2.2⟩

/-- C9 counterexample: the code follows whatever page number the next-page
element advertises without enforcing growth: a page 5 whose navigation
text says 3 makes the run fetch pages 5 then 3, ending Ok, so fetched page
numbers are not strictly increasing. -/
theorem page_order_claim_cex :
    (run envNavDown 3).fetched = [5, 3] ∧
    (run envNavDown 3).outcome = .ok ∧
    ¬ List.Chain' (fun a b => a < b) [5, 3] :=
  ⟨by decide, by decide, by simp [List.chain'_cons]⟩

/-- C9 (amended): the loop fetches pages in exactly the order the
navigation elements dictate; whenever every scanned page advertises a next
page number strictly greater than its own fetch number, the fetched page
numbers are strictly increasing; and a page with no next-page element ends
the loop Ok with the current page held. -/
theorem page_order_amended :
    (∀ (env : Env) (fuel pn : Nat) (w : Option Nat),
      (∀ p fr nav m2, env.fetch p = some fr → fr.page.nextNav = some nav →
        navNext nav = .ok m2 → p < m2) →
      List.Chain' (fun a b => a < b) (runLoop env fuel pn w).fetched) ∧
    (∀ (b : EnvBase) (p x fuel : Nat) (fr : FetchResult) (ds : List Nat) (t : Nat)
      (wf : List Char),
      b.clientOk = true → b.webhookConf = .ok wf → p ≠ U32MAX →
      b.fetch p = some fr → fr.page.nextNav = none →
      processPosts (mkEnv b (some p) (some x)) x fr.page.posts x = (ds, .ok (t, false)) →
      b.writePageErr = none → b.writeSentErr = none →
      run (mkEnv b (some p) (some x)) (fuel + 1) = ⟨ds, [p], some p, some t, .ok⟩) := by
  constructor
  · intro env fuel pn w H
    exact runLoop_chain env H fuel pn w
  · intro b p x fuel fr ds t wf hc hwc hp hf hnav hproc hw1 hw2
    have hrl : runLoop (mkEnv b (some p) (some x)) (fuel + 1) p (some x)
        = ⟨ds, [p], .ok p t⟩ := by
      simp [runLoop, mkEnv_fetch, hf, resolvePage, hp, hproc, hnav]
    simp [run, try_read_mkEnv_page, try_read_mkEnv_sent, mkEnv_clientOk,
      mkEnv_webhookConf, mkEnv_writePageErr, mkEnv_writeSentErr,
      hc, hwc, hrl, hw1, hw2]

/-- C9 witness: a world whose only page (5) has no next-page element: the
fetched page numbers are chained increasing (trivially) and the run ends
Ok holding page 5. -/
theorem page_order_amended_witness :
    List.Chain' (fun a b => a < b) (runLoop envOnePage 2 5 (some 1)).fetched ∧
    run (mkEnv baseOnePage (some 5) (some 1)) (0 + 1) = ⟨[], [5], some 5, some 1, .ok⟩ :=
  ⟨page_order_amended.1 envOnePage 2 5 (some 1)
      (by
        intro p fr nav m2 hf hnav hnn
        simp only [envOnePage, mkEnv_fetch, baseOnePage, mkBase] at hf
        split at hf
        · cases hf
          exact Option.noConfusion hnav
        · exact Option.noConfusion hf),
    page_order_amended.2 baseOnePage 5 1 0 ⟨none, ⟨[], none⟩⟩ [] 1 ['w']
      rfl rfl (by decide) rfl rfl rfl rfl rfl⟩

/-- C10: with the stored watermark unset, a scanned page with zero post
containers makes the run fail with the scraping error and write neither
cursor value; with the watermark set, the same page is processed without
error: nothing is delivered and the stored watermark value is persisted
unchanged. -/
theorem empty_page_modes (b : EnvBase) (p x fuel : Nat) (fr : FetchResult) (wf : List Char)
    (hc : b.clientOk = true) (hwc : b.webhookConf = .ok wf)
    (hp : p ≠ U32MAX) (hf : b.fetch p = some fr) (hposts : fr.page.posts = []) :
    ((run (mkEnv b (some p) none) (fuel + 1)).outcome = .err .scraping ∧
     (run (mkEnv b (some p) none) (fuel + 1)).writtenPage = none ∧
     (run (mkEnv b (some p) none) (fuel + 1)).writtenSent = none ∧
     (run (mkEnv b (some p) none) (fuel + 1)).deliveries = []) ∧
    (fr.page.nextNav = none → b.writePageErr = none → b.writeSentErr = none →
      run (mkEnv b (some p) (some x)) (fuel + 1) = ⟨[], [p], some p, some x, .ok⟩) := by
  constructor
  · have hrl : runLoop (mkEnv b (some p) none) (fuel + 1) p none
        = ⟨[], [p], .err .scraping⟩ := by
      simp [runLoop, mkEnv_fetch, hf, resolvePage, hp, hposts]
    simp [run, try_read_mkEnv_page, try_read_mkEnv_sent, mkEnv_clientOk,
      mkEnv_webhookConf, hc, hwc, hrl]
  · intro hnav hw1 hw2
    have hproc : processPosts (mkEnv b (some p) (some x)) x fr.page.posts x
        = ([], .ok (x, false)) := by rw [hposts]; rfl
    have hrl : runLoop (mkEnv b (some p) (some x)) (fuel + 1) p (some x)
        = ⟨[], [p], .ok p x⟩ := by
      simp [runLoop, mkEnv_fetch, hf, resolvePage, hp, hproc, hnav]
    simp [run, try_read_mkEnv_page, try_read_mkEnv_sent, mkEnv_clientOk,
      mkEnv_webhookConf, mkEnv_writePageErr, mkEnv_writeSentErr,
      hc, hwc, hrl, hw1, hw2]

/-- C10 witness: a page with no posts at all: a baseline run against it
aborts with the scraping error and writes nothing; a run with watermark 4
ends Ok, delivers nothing and persists 4 again. -/
theorem empty_page_modes_witness :
    (run (mkEnv baseEmptyPage (some 1) none) (0 + 1)).outcome = .err .scraping ∧
    (run (mkEnv baseEmptyPage (some 1) none) (0 + 1)).writtenPage = none ∧
    (run (mkEnv baseEmptyPage (some 1) none) (0 + 1)).writtenSent = none ∧
    run (mkEnv baseEmptyPage (some 1) (some 4)) (0 + 1) = ⟨[], [1], some 1, some 4, .ok⟩ :=
  ⟨(empty_page_modes baseEmptyPage 1 4 0 ⟨none, ⟨[], none⟩⟩ ['w']
      rfl rfl (by decide) rfl rfl).1.1,
    (empty_page_modes baseEmptyPage 1 4 0 ⟨none, ⟨[], none⟩⟩ ['w']
      rfl rfl (by decide) rfl rfl).1.2.1,
    (empty_page_modes baseEmptyPage 1 4 0 ⟨none, ⟨[], none⟩⟩ ['w']
      rfl rfl (by decide) rfl rfl).1.2.2.1,
    (empty_page_modes baseEmptyPage 1 4 0 ⟨none, ⟨[], none⟩⟩ ['w']
      rfl rfl (by decide) rfl rfl).2 rfl rfl rfl⟩

end Tarjousbot
